import Mathlib

/-!
Verification of the flixOpt MILP compilation layer (`features.py`, `elements.py`).

Shallow-embedding conventions used throughout this file:

* Every symbolic `Equation` built by the source follows the convention
  `sum of summands = constant` for `eq_type='eq'` and
  `sum of summands ≤ constant` for `eq_type='ineq'`, as established by all
  `create_equation` / `add_summand` / `add_constant` call sites
  (e.g. `var_off`: summands `off + on`, constant `1`, meaning `on + off = 1`).
* Machine floats are modelled as rationals; numpy arrays over the time axis as
  functions `Fin n → ℚ` or as lists.
* A binary variable is a rational constrained to `{0, 1}`; variable bounds
  passed to `create_variable` become explicit conjuncts of the feasibility
  predicates.
* `CONFIG.modeling.EPSILON` and `CONFIG.modeling.BIG` live outside the
  repository, so they are threaded through as parameters `eps` / `big`.

The file is organised as definitions first (the embedding), then the theorems
settling the claims.
-/

namespace FlixOpt

/-! ## Definitions -/

/-! ### OnOffModel activation constraints (features.py, `_add_on_constraints`) -/

/-- Clamping of the defining bounds in `OnOffModel.__init__` (features.py
line 207): `(np.maximum(lb, CONFIG.modeling.EPSILON), ub)`. -/
def clampedLower (eps lb : ℚ) : ℚ := max lb eps

/-- Constraint `On_Constraint_1` of `_add_on_constraints` for a single defining
variable (lines 291-292): summands `-var + on * max(EPSILON, lower)`, no
constant, inequality, i.e. `-var + on * max(eps, lower) ≤ 0`.  The `lower`
appearing there is the bound already clamped in `__init__`. -/
def onConstraint1 (eps lower onv v : ℚ) : Prop :=
  -v + onv * max eps (clampedLower eps lower) ≤ 0

/-- Constraint `On_Constraint_2` (lines 296-297): summands
`var + on * (-upper)`, inequality, i.e. `var - upper * on ≤ 0`. -/
def onConstraint2 (upper onv v : ℚ) : Prop :=
  v + onv * (-upper) ≤ 0

/-- Both activation constraints emitted for the single-defining-variable case
of `OnOffModel._add_on_constraints`. -/
def onConstraintsSingle (eps lower upper onv v : ℚ) : Prop :=
  onConstraint1 eps lower onv v ∧ onConstraint2 upper onv v

/-! ### Flow size default (elements.py, `Flow.__init__`) -/

/-- The `size` argument of `Flow.__init__`: a plain scalar or an
`InvestParameters` object; `Option` models Python `None`. -/
inductive FlowSize where
  | scalar (q : ℚ)
  | invest
  deriving DecidableEq

/-- Python truthiness of `self.size = size or CONFIG.modeling.BIG`
(elements.py line 220): `None` and the number `0` are falsy and replaced by
the big default; any other scalar and any `InvestParameters` object are
truthy and kept. -/
def flowSizeInit (size : Option FlowSize) (big : ℚ) : FlowSize :=
  match size with
  | none => .scalar big
  | some (.scalar q) => if q = 0 then .scalar big else .scalar q
  | some .invest => .invest

/-! ### OnOffModel duration tracking (features.py, `_get_duration_in_hours`) -/

/-- Total horizon duration `system_model.dt_in_hours_total`: the sum of the
per-step durations. -/
def dtTotal (n : ℕ) (dt : Fin n → ℚ) : ℚ := ∑ t, dt t

/-- The big-M `mega` of `_get_duration_in_hours` (features.py line 396): total
horizon duration plus the carried previous duration. -/
def durationMega (n : ℕ) (dt : Fin n → ℚ) (prev : ℚ) : ℚ := dtTotal n dt + prev

/-- Feasibility of a duration sequence under everything
`OnOffModel._get_duration_in_hours` emits when no minimum and no maximum
duration is configured: the variable bounds `0 ≤ duration ≤ mega`
(lines 410-417, upper bound `mega` because `maximum_duration is None`),
`constraint_1` `duration(t) - on(t)·mega ≤ 0` (lines 424-426),
`constraint_2a` `duration(t) - duration(t-1) ≤ dt(t)` (lines 431-434),
`constraint_2b` `-duration(t) + duration(t-1) + on(t)·mega ≤ -dt(t) + mega`
(lines 442-446) and the first-step pin
`duration(0) - on(0)·(dt(0) + previous_duration) = 0` (lines 483-490). -/
def durationFeasible (n : ℕ) (dt : Fin n → ℚ) (prev : ℚ)
    (onv dur : Fin n → ℚ) : Prop :=
  (∀ t, 0 ≤ dur t) ∧
  (∀ t, dur t ≤ durationMega n dt prev) ∧
  (∀ t, dur t + onv t * (-(durationMega n dt prev)) ≤ 0) ∧
  (∀ i : ℕ, ∀ h : i + 1 < n,
    dur ⟨i + 1, h⟩ - dur ⟨i, Nat.lt_of_succ_lt h⟩ ≤ dt ⟨i + 1, h⟩) ∧
  (∀ i : ℕ, ∀ h : i + 1 < n,
    -(dur ⟨i + 1, h⟩) + dur ⟨i, Nat.lt_of_succ_lt h⟩
      + onv ⟨i + 1, h⟩ * durationMega n dt prev
      ≤ -(dt ⟨i + 1, h⟩) + durationMega n dt prev) ∧
  (∀ h : 0 < n, dur ⟨0, h⟩ + onv ⟨0, h⟩ * (-(dt ⟨0, h⟩ + prev)) = 0)

/-- The fixed binary activity sequence of claim C1. -/
def onC1 : Fin 11 → ℚ := ![0, 0, 1, 1, 1, 1, 0, 1, 1, 1, 0]

/-- The expected duration sequence of claim C1. -/
def durC1 : Fin 11 → ℚ := ![0, 0, 1, 2, 3, 4, 0, 1, 2, 3, 0]

/-- Unit step durations (every `dt_in_hours` entry equal to one hour). -/
def unitDt : Fin 11 → ℚ := fun _ => 1

/-! ### OnOffModel switch counting (features.py, `_add_switch_constraints`) -/

/-- Feasibility under the constraints emitted by
`OnOffModel._add_switch_constraints` plus the binary domains of `switchOn` and
`switchOff` (`is_binary=True` at lines 264-265): the per-step switch balance
`Switch` (lines 503-507), the initial balance `Initial_Switch` against the
previous horizon's last on-value (lines 511-515), the exclusion
`Switch_On_or_Off` `switchOn + switchOff ≤ 1.1` (lines 519-522) and
`NrSwitchOn` `nrSwitchOn - sum(switchOn) = 0` (lines 526-528).  The optional
upper bound `switch_on_total_max` of `nrSwitchOn` is not configured here. -/
def switchFeasible (n : ℕ) (prevOn : ℚ) (onv so sf : Fin n → ℚ) (nr : ℚ) : Prop :=
  (∀ t, so t = 0 ∨ so t = 1) ∧
  (∀ t, sf t = 0 ∨ sf t = 1) ∧
  (∀ i : ℕ, ∀ h : i + 1 < n,
    so ⟨i + 1, h⟩ - sf ⟨i + 1, h⟩ - onv ⟨i + 1, h⟩ + onv ⟨i, Nat.lt_of_succ_lt h⟩ = 0) ∧
  (∀ h : 0 < n, so ⟨0, h⟩ - sf ⟨0, h⟩ - onv ⟨0, h⟩ = -prevOn) ∧
  (∀ t, so t + sf t ≤ 11/10) ∧
  (nr - ∑ t, so t = 0)

/-- The fixed on sequence of claim C2. -/
def onC2 : Fin 5 → ℚ := ![0, 1, 1, 0, 1]

/-- The expected `switchOn` sequence of claim C2: 1 exactly at steps 1 and 4. -/
def switchOnC2 : Fin 5 → ℚ := ![0, 1, 0, 0, 1]

/-- The expected `switchOff` sequence of claim C2: 1 exactly at step 3. -/
def switchOffC2 : Fin 5 → ℚ := ![0, 0, 0, 1, 0]

/-! ### Piecewise segment encoding (features.py, `SegmentModel` and
`MultipleSegmentsModel`) -/

/-- Constraints of `SegmentModel.do_modeling` (lines 647-658) for one segment
at one time index: the binary domain of `inSegment`, the `[0, 1]` bounds of
`lambda0` and `lambda1`, and the equation
`-inSegment + lambda0 + lambda1 = 0`. -/
def segmentConstraints (inSeg l0 l1 : ℚ) : Prop :=
  (inSeg = 0 ∨ inSeg = 1) ∧
  (0 ≤ l0 ∧ l0 ≤ 1) ∧ (0 ≤ l1 ∧ l1 ≤ 1) ∧
  (-inSeg + l0 + l1 = 0)

/-- Constraints of `MultipleSegmentsModel.do_modeling` (lines 686-725) at one
time index, for `k` segments and `m` participating variables whose endpoint
pairs per segment are given by `points`: every segment's own constraints, the
`lambda_...` equation `-v + Σ_segments (λ0·point0 + λ1·point1) = 0` for every
variable, and the `in_single_Segment` equation, which sums the `inSegment`
flags and either subtracts a supplied outside-segments variable (`some o`) or
is pinned to the constant 1 when staying outside all segments is disallowed
(`none`; the `can_be_outside_segments = True` branch, which creates a fresh
binary outside variable, is not needed by the claims). -/
def multipleSegmentsConstraints (k m : ℕ) (points : Fin m → Fin k → ℚ × ℚ)
    (v : Fin m → ℚ) (inSeg l0 l1 : Fin k → ℚ) (outside : Option ℚ) : Prop :=
  (∀ s, segmentConstraints (inSeg s) (l0 s) (l1 s)) ∧
  (∀ j, -(v j) + ∑ s, (l0 s * (points j s).1 + l1 s * (points j s).2) = 0) ∧
  (match outside with
   | some o => (∑ s, inSeg s) - o = 0
   | none => (∑ s, inSeg s) = 1)

/-- The single segment of claim C5: variable 0 (the input) has endpoints
`(0, 10)`, variable 1 (the output) has endpoints `(0, 100)`. -/
def pointsC5 : Fin 2 → Fin 1 → ℚ × ℚ := ![fun _ => (0, 10), fun _ => (0, 100)]

/-! ### Symbolic equations and BusModel (elements.py, `BusModel.do_modeling`) -/

/-- One summand of a symbolic `Equation`: a (time-indexed) coefficient paired
with the values the assignment gives to the summand's variable. -/
structure LinTerm (n : ℕ) where
  coef : Fin n → ℚ
  vals : Fin n → ℚ

/-- A symbolic `Equation` under a fixed assignment: the summands added so far
and the constant (the right-hand side). -/
structure LinEq (n : ℕ) where
  terms : List (LinTerm n)
  const : Fin n → ℚ

/-- `Equation.add_summand`: appends one summand. -/
def LinEq.addSummand {n : ℕ} (e : LinEq n) (vals coef : Fin n → ℚ) : LinEq n :=
  { e with terms := e.terms ++ [⟨coef, vals⟩] }

/-- The per-step left-hand side of an equation: the sum of
`coefficient · value` over its summands. -/
def LinEq.lhs {n : ℕ} (e : LinEq n) (t : Fin n) : ℚ :=
  (e.terms.map fun tm => tm.coef t * tm.vals t).sum

/-- An equality-type equation holds when its left-hand side equals its
constant at every step. -/
def LinEq.holdsEq {n : ℕ} (e : LinEq n) : Prop := ∀ t, e.lhs t = e.const t

/-- The `busBalance` equation built by `BusModel.do_modeling`
(elements.py lines 427-442): `+1` summands for the input flow rates, `-1`
summands for the output flow rates and, when excess is enabled, a `-1`
summand for `excess_output` followed by a `+1` summand for `excess_input`;
the constant stays 0. -/
def busBalanceEquation (n : ℕ) (inputs outputs : List (Fin n → ℚ))
    (withExcess : Bool) (excessIn excessOut : Fin n → ℚ) : LinEq n :=
  let base :=
    outputs.foldl (fun acc f => acc.addSummand f fun _ => -1)
      (inputs.foldl (fun acc f => acc.addSummand f fun _ => 1) ⟨[], fun _ => 0⟩)
  if withExcess then
    (base.addSummand excessOut fun _ => -1).addSummand excessIn fun _ => 1
  else base

/-- A share registered in the penalty ledger via `add_share_to_penalty`:
the penalised variable and its per-step factor. -/
structure PenaltyShare (n : ℕ) where
  var : Fin n → ℚ
  factor : Fin n → ℚ

/-- The penalty shares registered by `BusModel.do_modeling`
(elements.py lines 435-451) when excess is enabled: `excess_input` and
`excess_output`, each with factor
`np.multiply(dt_in_hours, excess_penalty_per_flow_hour)`. -/
def busPenaltyShares (n : ℕ) (withExcess : Bool)
    (excessIn excessOut dt rate : Fin n → ℚ) : List (PenaltyShare n) :=
  if withExcess then
    [⟨excessIn, fun t => dt t * rate t⟩, ⟨excessOut, fun t => dt t * rate t⟩]
  else []

/-- Feasibility of an assignment for the model built by
`BusModel.do_modeling`: the balance equation holds, and when excess is
enabled both excess variables respect their `lower_bound=0`
(lines 438-439). -/
def busFeasible (n : ℕ) (inputs outputs : List (Fin n → ℚ)) (withExcess : Bool)
    (excessIn excessOut : Fin n → ℚ) : Prop :=
  (busBalanceEquation n inputs outputs withExcess excessIn excessOut).holdsEq ∧
  (withExcess = true → (∀ t, 0 ≤ excessIn t) ∧ (∀ t, 0 ≤ excessOut t))

/-- Concrete bus input flow rates for the C6 witness. -/
def c6wInputs : List (Fin 1 → ℚ) := [fun _ => 3]

/-- Concrete bus output flow rates for the C6 witness. -/
def c6wOutputs : List (Fin 1 → ℚ) := [fun _ => 2]

/-- Concrete excess input for the C6 witness. -/
def c6wExcessIn : Fin 1 → ℚ := fun _ => 0

/-- Concrete excess output for the C6 witness. -/
def c6wExcessOut : Fin 1 → ℚ := fun _ => 1

/-- Concrete step duration for the C6 witness. -/
def c6wDt : Fin 1 → ℚ := fun _ => 2

/-- Concrete excess penalty rate for the C6 witness. -/
def c6wRate : Fin 1 → ℚ := fun _ => 5

/-! ### InvestmentModel share registration (features.py, `_create_shares`) -/

/-- Names of the investment shares registered by
`InvestmentModel._create_shares`. -/
inductive ShareName where
  | fixEffects
  | divestEffects
  | divestCancellationEffects
  | specificEffects
  deriving DecidableEq

/-- The model variable a share is multiplied with (the `variable` argument of
`add_share_to_invest`): the `isInvested` binary or the `size` variable. -/
inductive GateVar where
  | isInvested
  | sizeVar
  deriving DecidableEq

/-- One call to `effect_collection.add_share_to_invest`: share name, effect
values (effect id paired with its value), scalar factor, and the optional
model variable the share is proportional to (`none` means the share is paid
unconditionally). -/
structure InvestShare where
  name : ShareName
  effects : List (ℕ × ℚ)
  factor : ℚ
  gate : Option GateVar
  deriving DecidableEq

/-- The fields of `InvestParameters` read by `InvestmentModel._create_shares`
and its bound helpers; effect dictionaries are lists of (effect id, value)
pairs, and the Python check `!= {}` is list non-emptiness.  The
`effects_in_segments` piecewise cost curve is registered through a
`SegmentedSharesModel` sub-model rather than by `_create_shares` directly, so
it is not part of this structure. -/
structure InvestParams where
  fixed_size : Option ℚ
  optional : Bool
  minimum_size : ℚ
  maximum_size : ℚ
  fix_effects : List (ℕ × ℚ)
  divest_effects : List (ℕ × ℚ)
  specific_effects : List (ℕ × ℚ)
  deriving DecidableEq

/-- The direct `add_share_to_invest` calls of `InvestmentModel._create_shares`
(features.py lines 80-109), in source order: `fix_effects` (gated by
`isInvested` exactly when the investment is optional), the two divestment
shares `+divest_effects` (ungated) and `-divest_effects · isInvested` — which
the source emits only inside the `if invest_parameters.optional:` branch
(lines 96-102) — and `specific_effects` proportional to `size`. -/
def investShares (p : InvestParams) : List InvestShare :=
  (if p.fix_effects ≠ [] then
    [⟨.fixEffects, p.fix_effects, 1, if p.optional then some .isInvested else none⟩]
   else []) ++
  (if p.divest_effects ≠ [] then
    (if p.optional then
      [⟨.divestEffects, p.divest_effects, 1, none⟩,
       ⟨.divestCancellationEffects, p.divest_effects, -1, some .isInvested⟩]
     else [])
   else []) ++
  (if p.specific_effects ≠ [] then
    [⟨.specificEffects, p.specific_effects, 1, some .sizeVar⟩]
   else [])

/-- Total value of an effect dictionary (summed over its effects). -/
def effectTotal (effects : List (ℕ × ℚ)) : ℚ := (effects.map Prod.snd).sum

/-- Value of a share's gating variable under an assignment giving `isInvested`
the value `isInvestedVal` and `size` the value `sizeVal`; an ungated share
contributes with factor 1. -/
def gateValue (isInvestedVal sizeVal : ℚ) : Option GateVar → ℚ
  | none => 1
  | some .isInvested => isInvestedVal
  | some .sizeVar => sizeVal

/-- The ledger contribution of one registered share:
`effect value · factor · gating variable`. -/
def shareValue (isInvestedVal sizeVal : ℚ) (sh : InvestShare) : ℚ :=
  effectTotal sh.effects * sh.factor * gateValue isInvestedVal sizeVal sh.gate

/-- The net divestment cost: the summed contribution of the shares named
`divest_effects` and `divest_cancellation_effects`. -/
def divestContribution (p : InvestParams) (isInvestedVal sizeVal : ℚ) : ℚ :=
  (((investShares p).filter fun sh =>
      sh.name == ShareName.divestEffects
        || sh.name == ShareName.divestCancellationEffects).map
    (shareValue isInvestedVal sizeVal)).sum

/-- Claim C4's concrete input: non-optional investment with non-empty
divestment effects. -/
def investParamsC4 : InvestParams :=
  { fixed_size := none, optional := false, minimum_size := 0, maximum_size := 10,
    fix_effects := [], divest_effects := [(0, 5)], specific_effects := [] }

/-- Optional-investment variant of claim C4's input, for the witness. -/
def investParamsC4w : InvestParams :=
  { fixed_size := none, optional := true, minimum_size := 0, maximum_size := 10,
    fix_effects := [], divest_effects := [(0, 5)], specific_effects := [] }

/-! ### Share ledger (features.py, `ShareAllocationModel.add_share` and
`SingleShareModel.__init__`) -/

/-- The failure modes of `ShareAllocationModel.add_share`: the assertion
`not (variable.length == 1 and share_as_sum)` of `SingleShareModel.__init__`
(line 826), the duplicate-label assertion of `add_share` (lines 808-810), and
the `raise Exception('This case is not yet covered ...')` of
`SingleShareModel.__init__` (line 837). -/
inductive ShareError where
  | lengthOneSummed
  | duplicateName
  | notCovered
  deriving DecidableEq

/-- `SingleShareModel.__init__` (features.py lines 823-846): `varLength` is
`variable.length` (`none` when `variable is None`), `scalarFactor` is
`np.isscalar(factor)`.  Returns the length of the created `single_share`
variable, or the raised error. -/
def singleShareInit (varLength : Option ℕ) (scalarFactor asSum : Bool) :
    Except ShareError ℕ :=
  if varLength = some 1 ∧ asSum = true then .error .lengthOneSummed
  else if asSum = true ∨ varLength = some 1 ∨ (varLength = none ∧ scalarFactor = true) then
    .ok 1
  else
    match varLength with
    | some l => .ok l
    | none => .error .notCovered

/-- The mutable state of a `ShareAllocationModel` that `add_share` touches:
the summands of `_eq_sum` and `_eq_time_series` (share name paired with
coefficient), the `sub_models` list and the keys of the `shares` dict. -/
structure LedgerState where
  sumEqTerms : List (ℕ × ℚ)
  tsEqTerms : List (ℕ × ℚ)
  subModels : List ℕ
  shares : List ℕ
  deriving DecidableEq

/-- `ShareAllocationModel.add_share` (features.py lines 785-811): selects the
target equation, constructs the `SingleShareModel` (which may raise), appends
the new share as a `+1` summand to the target equation, appends the sub-model,
then asserts the label is new and records the share.  Returns the post-call
state together with the raised error, if any; mutations performed before a
raise are kept, mirroring the Python object state. -/
def addShare (sharesAreTimeSeries : Bool) (st : LedgerState) (name : ℕ)
    (varLength : Option ℕ) (scalarFactor asSum : Bool) :
    LedgerState × Option ShareError :=
  match singleShareInit varLength scalarFactor asSum with
  | .error e => (st, some e)
  | .ok _ =>
    let st1 :=
      if asSum = true ∨ sharesAreTimeSeries = false then
        { st with sumEqTerms := st.sumEqTerms ++ [(name, 1)] }
      else
        { st with tsEqTerms := st.tsEqTerms ++ [(name, 1)] }
    let st2 := { st1 with subModels := st1.subModels ++ [name] }
    if name ∈ st2.shares then (st2, some .duplicateName)
    else ({ st2 with shares := st2.shares ++ [name] }, none)

/-- A ledger holding no shares. -/
def emptyLedger : LedgerState := ⟨[], [], [], []⟩

/-- A ledger already holding a share named 7, for the C8 witness. -/
def dupLedger : LedgerState := ⟨[], [], [], [7]⟩

/-! ### Previous on-values (features.py, `OnOffModel._previous_on_values`) -/

/-- A defining variable's `previous_values`: a scalar or a per-step array. -/
inductive PrevVal where
  | scalar (q : ℚ)
  | arr (vs : List ℚ)
  deriving DecidableEq

/-- Whether a previous value is a scalar. -/
def PrevVal.isScalar : PrevVal → Bool
  | .scalar _ => true
  | .arr _ => false

/-- A previous value as a row of per-step entries (a scalar is one step). -/
def PrevVal.row : PrevVal → List ℚ
  | .scalar q => [q]
  | .arr vs => vs

/-- The scalar payload (only used on scalars). -/
def PrevVal.scalarVal : PrevVal → ℚ
  | .scalar q => q
  | .arr _ => 0

/-- The array length, `none` for scalars. -/
def PrevVal.arrLen : PrevVal → Option ℕ
  | .scalar _ => none
  | .arr vs => some vs.length

/-- `OnOffModel._previous_on_values` (features.py lines 546-570).  The list
comprehension keeps the non-`None` previous values; `np.array` of that list is
1-D when every element is a scalar (one entry per variable) and 2-D when every
element is an equal-length array (variables × steps); mixed or ragged input is
modelled as `none` (numpy fails to build a rectangular array there).  In the
2-D case the result is `np.any(~np.isclose(..., atol=eps), axis=0)` — per
step, 1 when some variable's entry is farther than `eps` from 0; in the 1-D
case it is the elementwise `~np.isclose(..., atol=eps)` — one entry per
variable. -/
def previousOnValues (eps : ℚ) (prevs : List (Option PrevVal)) : Option (List ℚ) :=
  match prevs.filterMap id with
  | [] => some [0]
  | v0 :: vs =>
    if (v0 :: vs).all PrevVal.isScalar then
      some ((v0 :: vs).map fun v => if |v.scalarVal| ≤ eps then (0 : ℚ) else 1)
    else
      match v0.arrLen with
      | some len =>
        if (v0 :: vs).all fun v => v.arrLen == some len then
          some ((List.range len).map fun j =>
            if (v0 :: vs).any fun v => decide (eps < |v.row.getD j 0|) then (1 : ℚ) else 0)
        else none
      | none => none

/-- The behaviour claim C10 asserts, written from the claim's words: `[0]`
when no variable carries previous values, and otherwise, for each previous
STEP, 1 exactly when some defining variable's previous value at that step
differs from 0 by more than `eps` (a scalar previous value spans one step). -/
def previousOnValuesClaimed (eps : ℚ) (prevs : List (Option PrevVal)) : Option (List ℚ) :=
  match prevs.filterMap id with
  | [] => some [0]
  | v0 :: vs =>
    if (v0 :: vs).all fun v => v.row.length == v0.row.length then
      some ((List.range v0.row.length).map fun j =>
        if ∃ v ∈ v0 :: vs, eps < |v.row.getD j 0| then (1 : ℚ) else 0)
    else none

/-- The amended description of `_previous_on_values`: as the code, but with
the two branches stated positively — per-variable indicators `eps < |value|`
in the all-scalar case, and a per-step existential in the equal-length-arrays
case. -/
def previousOnValuesAmended (eps : ℚ) (prevs : List (Option PrevVal)) : Option (List ℚ) :=
  match prevs.filterMap id with
  | [] => some [0]
  | v0 :: vs =>
    if (v0 :: vs).all PrevVal.isScalar then
      some ((v0 :: vs).map fun v => if eps < |v.scalarVal| then (1 : ℚ) else 0)
    else
      match v0.arrLen with
      | some len =>
        if (v0 :: vs).all fun v => v.arrLen == some len then
          some ((List.range len).map fun j =>
            if ∃ v ∈ v0 :: vs, eps < |v.row.getD j 0| then (1 : ℚ) else 0)
        else none
      | none => none

/-- Claim C10's concrete input: two defining variables whose previous values
are the scalars 5 and 0. -/
def prevsC10 : List (Option PrevVal) := [some (.scalar 5), some (.scalar 0)]

/-! ## Theorems -/

/-! ### Helper lemmas -/

/-- The double clamping `max eps (max lower eps)` collapses to
`max eps lower`. -/
lemma max_clamp (eps lower : ℚ) :
    max eps (clampedLower eps lower) = max eps lower := by
  unfold clampedLower
  rw [max_comm lower eps, ← max_assoc, max_self]

/-- Appending a summand adds `coefficient · value` to the left-hand side. -/
lemma LinEq.lhs_addSummand {n : ℕ} (e : LinEq n) (v c : Fin n → ℚ) (t : Fin n) :
    (e.addSummand v c).lhs t = e.lhs t + c t * v t := by
  simp [addSummand, lhs]

/-- Folding a list of variables into an equation with a shared coefficient
adds `coefficient · sum of values` to the left-hand side. -/
lemma LinEq.lhs_foldl {n : ℕ} (l : List (Fin n → ℚ)) (c : Fin n → ℚ)
    (e : LinEq n) (t : Fin n) :
    (l.foldl (fun acc f => acc.addSummand f c) e).lhs t
      = e.lhs t + c t * (l.map fun f => f t).sum := by
  induction l generalizing e with
  | nil => simp
  | cons f l ih =>
    rw [List.foldl_cons, ih, LinEq.lhs_addSummand]
    simp [List.map_cons]
    ring

/-- Appending a summand keeps the constant. -/
lemma LinEq.const_addSummand {n : ℕ} (e : LinEq n) (v c : Fin n → ℚ) :
    (e.addSummand v c).const = e.const := rfl

/-- Folding summands into an equation keeps the constant. -/
lemma LinEq.const_foldl {n : ℕ} (l : List (Fin n → ℚ)) (c : Fin n → ℚ) (e : LinEq n) :
    (l.foldl (fun acc f => acc.addSummand f c) e).const = e.const := by
  induction l generalizing e with
  | nil => rfl
  | cons f l ih => rw [List.foldl_cons, ih]; rfl

/-- The left-hand side of the built bus balance equation is
`Σ inputs − Σ outputs (+ excess_in − excess_out)`. -/
lemma busBalanceEquation_lhs (n : ℕ) (inputs outputs : List (Fin n → ℚ))
    (withExcess : Bool) (excessIn excessOut : Fin n → ℚ) (t : Fin n) :
    (busBalanceEquation n inputs outputs withExcess excessIn excessOut).lhs t
      = (inputs.map fun f => f t).sum - (outputs.map fun f => f t).sum
        + (if withExcess then excessIn t - excessOut t else 0) := by
  unfold busBalanceEquation
  cases withExcess
  · simp only [Bool.false_eq_true, if_false]
    rw [LinEq.lhs_foldl, LinEq.lhs_foldl]
    simp [LinEq.lhs]
    ring
  · simp only [if_true]
    rw [LinEq.lhs_addSummand, LinEq.lhs_addSummand, LinEq.lhs_foldl, LinEq.lhs_foldl]
    simp [LinEq.lhs]
    ring

/-- The constant of the built bus balance equation is 0. -/
lemma busBalanceEquation_const (n : ℕ) (inputs outputs : List (Fin n → ℚ))
    (withExcess : Bool) (excessIn excessOut : Fin n → ℚ) (t : Fin n) :
    (busBalanceEquation n inputs outputs withExcess excessIn excessOut).const t = 0 := by
  unfold busBalanceEquation
  cases withExcess
  · simp only [Bool.false_eq_true, if_false]
    rw [LinEq.const_foldl, LinEq.const_foldl]
  · simp only [if_true]
    rw [LinEq.const_addSummand, LinEq.const_addSummand, LinEq.const_foldl, LinEq.const_foldl]

/-! ### Claim C1 -/

/-- C1: with previous carried duration 0, unit step durations and the fixed
activity sequence `[0,0,1,1,1,1,0,1,1,1,0]`, a duration sequence satisfies the
constraints emitted by `_get_duration_in_hours` if and only if it is
`[0,0,1,2,3,4,0,1,2,3,0]`. -/
theorem c1_duration_roundtrip (dur : Fin 11 → ℚ) :
    durationFeasible 11 unitDt 0 onC1 dur ↔ dur = durC1 := by
  have hM : durationMega 11 unitDt 0 = 11 := by
    simp [durationMega, dtTotal, unitDt]
  constructor
  · rintro ⟨hlb, hub, h1, h2a, h2b, h0⟩
    simp only [hM] at h1
    have hzero : ∀ t : Fin 11, onC1 t = 0 → dur t = 0 := by
      intro t hOn
      have ha := h1 t
      rw [hOn] at ha
      have hb := hlb t
      norm_num at ha
      linarith
    have hstep : ∀ i : ℕ, ∀ h : i + 1 < 11, onC1 ⟨i + 1, h⟩ = 1 →
        dur ⟨i + 1, h⟩ = dur ⟨i, Nat.lt_of_succ_lt h⟩ + 1 := by
      intro i h hOn
      have ha := h2a i h
      have hb := h2b i h
      rw [hM, hOn] at hb
      simp only [unitDt] at ha hb
      linarith
    have d0 : dur ⟨0, by norm_num⟩ = 0 := by
      have h := h0 (by norm_num)
      norm_num [onC1, unitDt] at h
      exact h
    have d1 : dur ⟨1, by norm_num⟩ = 0 := by apply hzero; norm_num [onC1]
    have d6 : dur ⟨6, by norm_num⟩ = 0 := by apply hzero; norm_num [onC1]
    have d10 : dur ⟨10, by norm_num⟩ = 0 := by apply hzero; norm_num [onC1]
    have d2 : dur ⟨2, by norm_num⟩ = 1 := by
      have s := hstep 1 (by norm_num) (by norm_num [onC1])
      rw [d1] at s
      rw [s]
      norm_num
    have d3 : dur ⟨3, by norm_num⟩ = 2 := by
      have s := hstep 2 (by norm_num) (by norm_num [onC1])
      rw [d2] at s
      rw [s]
      norm_num
    have d4 : dur ⟨4, by norm_num⟩ = 3 := by
      have s := hstep 3 (by norm_num) (by norm_num [onC1])
      rw [d3] at s
      rw [s]
      norm_num
    have d5 : dur ⟨5, by norm_num⟩ = 4 := by
      have s := hstep 4 (by norm_num) (by norm_num [onC1])
      rw [d4] at s
      rw [s]
      norm_num
    have d7 : dur ⟨7, by norm_num⟩ = 1 := by
      have s := hstep 6 (by norm_num) (by norm_num [onC1])
      rw [d6] at s
      rw [s]
      norm_num
    have d8 : dur ⟨8, by norm_num⟩ = 2 := by
      have s := hstep 7 (by norm_num) (by norm_num [onC1])
      rw [d7] at s
      rw [s]
      norm_num
    have d9 : dur ⟨9, by norm_num⟩ = 3 := by
      have s := hstep 8 (by norm_num) (by norm_num [onC1])
      rw [d8] at s
      rw [s]
      norm_num
    funext t
    fin_cases t
    exacts [d0, d1, d2, d3, d4, d5, d6, d7, d8, d9, d10]
  · rintro rfl
    refine ⟨?_, ?_, ?_, ?_, ?_, ?_⟩
    · intro t
      fin_cases t <;> norm_num [durC1]
    · intro t
      rw [hM]
      fin_cases t <;> norm_num [durC1]
    · intro t
      rw [hM]
      fin_cases t <;> norm_num [durC1, onC1]
    · intro i h
      have h' : i < 10 := by omega
      interval_cases i <;> norm_num [durC1, unitDt]
    · intro i h
      rw [hM]
      have h' : i < 10 := by omega
      interval_cases i <;> norm_num [durC1, onC1, unitDt]
    · intro h
      norm_num [durC1, onC1, unitDt]

/-! ### Claim C2 -/

/-- C2: with `on = [0,1,1,0,1]` and previous on-value 0, a 0/1 assignment of
`switchOn`, `switchOff` and `nrSwitchOn` is feasible under the emitted switch
constraints if and only if `switchOn = [0,1,0,0,1]`,
`switchOff = [0,0,0,1,0]` and `nrSwitchOn = 2`. -/
theorem c2_switch_counting (so sf : Fin 5 → ℚ) (nr : ℚ) :
    switchFeasible 5 0 onC2 so sf nr ↔
      (so = switchOnC2 ∧ sf = switchOffC2 ∧ nr = 2) := by
  constructor
  · rintro ⟨hso, hsf, hstep, hinit, hsum, hnr⟩
    have p0 : so 0 = 0 ∧ sf 0 = 0 := by
      have h := hinit (by norm_num)
      have hb := hsum 0
      norm_num [onC2] at h
      rcases hso 0 with h1 | h1 <;> rcases hsf 0 with h2 | h2 <;>
        constructor <;> first | assumption | linarith
    have p1 : so 1 = 1 ∧ sf 1 = 0 := by
      have h := hstep 0 (by norm_num)
      have hb := hsum 1
      norm_num [onC2] at h
      rcases hso 1 with h1 | h1 <;> rcases hsf 1 with h2 | h2 <;>
        constructor <;> first | assumption | linarith
    have p2 : so 2 = 0 ∧ sf 2 = 0 := by
      have h := hstep 1 (by norm_num)
      have e : (⟨1 + 1, by norm_num⟩ : Fin 5) = 2 := rfl
      have e' : (⟨1, by norm_num⟩ : Fin 5) = 1 := rfl
      rw [e, e'] at h
      have hb := hsum 2
      norm_num [onC2] at h
      rcases hso 2 with h1 | h1 <;> rcases hsf 2 with h2 | h2 <;>
        constructor <;> first | assumption | linarith
    have p3 : so 3 = 0 ∧ sf 3 = 1 := by
      have h := hstep 2 (by norm_num)
      have e : (⟨2 + 1, by norm_num⟩ : Fin 5) = 3 := rfl
      have e' : (⟨2, by norm_num⟩ : Fin 5) = 2 := rfl
      rw [e, e'] at h
      have hb := hsum 3
      norm_num [onC2] at h
      rcases hso 3 with h1 | h1 <;> rcases hsf 3 with h2 | h2 <;>
        constructor <;> first | assumption | linarith
    have p4 : so 4 = 1 ∧ sf 4 = 0 := by
      have h := hstep 3 (by norm_num)
      have e : (⟨3 + 1, by norm_num⟩ : Fin 5) = 4 := rfl
      have e' : (⟨3, by norm_num⟩ : Fin 5) = 3 := rfl
      rw [e, e'] at h
      have hb := hsum 4
      norm_num [onC2] at h
      rcases hso 4 with h1 | h1 <;> rcases hsf 4 with h2 | h2 <;>
        constructor <;> first | assumption | linarith
    refine ⟨?_, ?_, ?_⟩
    · funext t
      fin_cases t
      exacts [p0.1, p1.1, p2.1, p3.1, p4.1]
    · funext t
      fin_cases t
      exacts [p0.2, p1.2, p2.2, p3.2, p4.2]
    · rw [Fin.sum_univ_five] at hnr
      linarith [p0.1, p1.1, p2.1, p3.1, p4.1]
  · rintro ⟨rfl, rfl, rfl⟩
    refine ⟨?_, ?_, ?_, ?_, ?_, ?_⟩
    · intro t
      fin_cases t <;> norm_num [switchOnC2]
    · intro t
      fin_cases t <;> norm_num [switchOffC2]
    · intro i h
      have h' : i < 4 := by omega
      interval_cases i <;> norm_num [switchOnC2, switchOffC2, onC2]
    · intro h
      norm_num [switchOnC2, switchOffC2, onC2]
    · intro t
      fin_cases t <;> norm_num [switchOnC2, switchOffC2]
    · rw [Fin.sum_univ_five]
      norm_num [switchOnC2]

/-! ### Claim C3 -/

/-- C3 counterexample: with true bound pair `[0, 1]`, tolerance
`eps = 1/100000` and `on = 1`, the value `1/200000` satisfies the true bounds
but violates the emitted activation constraints, so the true bound pair does
not apply unchanged when `on = 1`: the lower bound is tightened to `eps`. -/
theorem c3_counterexample :
    (0 ≤ (1 : ℚ)/200000 ∧ (1 : ℚ)/200000 ≤ 1) ∧
      ¬ onConstraintsSingle (1/100000) 0 1 1 ((1 : ℚ)/200000) := by
  constructor
  · constructor <;> norm_num
  · intro h
    rcases h with ⟨h1, _⟩
    rw [onConstraint1, max_clamp] at h1
    norm_num at h1

/-- C3 amended: if `on(t) = 0` the emitted constraints force the defining
variable to `0`, hence into `[0, eps]`; if `on(t) = 1` they are exactly
equivalent to `max(eps, lower) ≤ var ≤ upper` — the upper bound applies
unchanged, while the lower bound is unchanged only when `lower ≥ eps` and is
tightened to `eps` otherwise. -/
theorem c3_on_constraints_amended (eps lower upper onv v : ℚ) (heps : 0 < eps) :
    (onv = 0 → (onConstraintsSingle eps lower upper onv v → 0 ≤ v ∧ v ≤ eps)) ∧
    (onv = 1 → (onConstraintsSingle eps lower upper onv v ↔
        max eps lower ≤ v ∧ v ≤ upper)) := by
  constructor
  · rintro rfl ⟨h1, h2⟩
    rw [onConstraint1, max_clamp] at h1
    rw [onConstraint2] at h2
    constructor <;> linarith
  · rintro rfl
    constructor
    · rintro ⟨h1, h2⟩
      rw [onConstraint1, max_clamp] at h1
      rw [onConstraint2] at h2
      constructor <;> linarith
    · rintro ⟨h1, h2⟩
      constructor
      · rw [onConstraint1, max_clamp]
        linarith
      · rw [onConstraint2]
        linarith

/-- Witness for the amended C3 theorem at `eps = 1`, bounds `[2, 3]`,
`on = 1`, `var = 2`. -/
theorem c3_on_constraints_amended_witness :
    ((1 : ℚ) = 0 → (onConstraintsSingle 1 2 3 1 2 → 0 ≤ (2 : ℚ) ∧ (2 : ℚ) ≤ 1)) ∧
    ((1 : ℚ) = 1 → (onConstraintsSingle 1 2 3 1 2 ↔
        max (1 : ℚ) 2 ≤ 2 ∧ (2 : ℚ) ≤ 3)) :=
  c3_on_constraints_amended 1 2 3 1 2 (by norm_num)

/-! ### Claim C4 -/

/-- C4 counterexample: for a non-optional investment configuration with
non-empty divestment effects, `_create_shares` registers no divestment share
at all — the claim's unconditional positive share is absent. -/
theorem c4_counterexample :
    investParamsC4.divest_effects ≠ [] ∧ investShares investParamsC4 = [] := by
  constructor
  · simp [investParamsC4]
  · rfl

/-- C4 amended: when the investment is OPTIONAL and carries non-empty
divestment effects, `_create_shares` registers both the unconditional
positive divestment share and the cancelling `-divest_effects · isInvested`
share, so the net divestment cost is the divestment effects when not
invested and 0 when invested; for a non-optional configuration nothing is
registered. -/
theorem c4_divest_shares_amended (p : InvestParams) (s : ℚ)
    (hopt : p.optional = true) (hdiv : p.divest_effects ≠ []) :
    (⟨.divestEffects, p.divest_effects, 1, none⟩ : InvestShare) ∈ investShares p ∧
    (⟨.divestCancellationEffects, p.divest_effects, -1, some .isInvested⟩ : InvestShare)
        ∈ investShares p ∧
    divestContribution p 0 s = effectTotal p.divest_effects ∧
    divestContribution p 1 s = 0 := by
  by_cases hf : p.fix_effects = [] <;> by_cases hs : p.specific_effects = [] <;>
    simp [investShares, divestContribution, shareValue, gateValue, hopt, hdiv, hf, hs]

/-- Witness for the amended C4 theorem at an optional configuration with a
single divestment effect of value 5 and `size = 3`. -/
theorem c4_divest_shares_amended_witness :
    (⟨.divestEffects, investParamsC4w.divest_effects, 1, none⟩ : InvestShare)
        ∈ investShares investParamsC4w ∧
    (⟨.divestCancellationEffects, investParamsC4w.divest_effects, -1,
        some .isInvested⟩ : InvestShare) ∈ investShares investParamsC4w ∧
    divestContribution investParamsC4w 0 3 = effectTotal investParamsC4w.divest_effects ∧
    divestContribution investParamsC4w 1 3 = 0 :=
  c4_divest_shares_amended investParamsC4w 3 (by rfl) (by simp [investParamsC4w])

/-! ### Claim C5 -/

/-- C5: for the single segment with endpoints `(0, 0)` and `(10, 100)` for the
input and output variables, outside-segment values disallowed and the input
fixed to 5, every feasible assignment has `inSegment = 1`,
`lambda0 + lambda1 = 1` and output exactly 50. -/
theorem c5_segment (v : Fin 2 → ℚ) (inSeg l0 l1 : Fin 1 → ℚ)
    (h : multipleSegmentsConstraints 1 2 pointsC5 v inSeg l0 l1 none)
    (hv : v 0 = 5) :
    inSeg 0 = 1 ∧ l0 0 + l1 0 = 1 ∧ v 1 = 50 := by
  obtain ⟨hseg, hlam, hout⟩ := h
  simp only [Fin.sum_univ_one] at hout
  have hin : inSeg 0 = 1 := hout
  obtain ⟨hbin, hl0, hl1, hsum⟩ := hseg 0
  have h0 := hlam 0
  have h1 := hlam 1
  simp only [Fin.sum_univ_one, pointsC5] at h0 h1
  norm_num at h0 h1
  refine ⟨hin, by linarith, by linarith⟩

/-- Witness for C5 at the assignment `input = 5`, `output = 50`,
`inSegment = 1`, `lambda0 = lambda1 = 1/2`. -/
theorem c5_segment_witness :
    (![(1 : ℚ)] 0 = 1) ∧ (![(1 : ℚ)/2] 0 + ![(1 : ℚ)/2] 0 = 1) ∧
      ((![5, 50] : Fin 2 → ℚ) 1 = 50) := by
  refine c5_segment ![5, 50] ![1] ![1/2] ![1/2] ?_ (by norm_num)
  refine ⟨?_, ?_, ?_⟩
  · intro s
    fin_cases s
    refine ⟨Or.inr rfl, by norm_num, by norm_num, by norm_num⟩
  · intro j
    fin_cases j <;> simp [Fin.sum_univ_one, pointsC5] <;> norm_num
  · simp [Fin.sum_univ_one]

/-! ### Claim C6 -/

/-- C6: for every feasible assignment of the model built by
`BusModel.do_modeling`, at every step the sum of input flow rates minus the
sum of output flow rates, plus `excess_input` minus `excess_output` when
excess is enabled, equals 0 exactly; and when excess is enabled both excess
variables are bounded below by 0 and are registered as penalty shares with
factor step duration times the excess penalty rate. -/
theorem c6_bus_balance (n : ℕ) (inputs outputs : List (Fin n → ℚ)) (withExcess : Bool)
    (excessIn excessOut dt rate : Fin n → ℚ)
    (h : busFeasible n inputs outputs withExcess excessIn excessOut) :
    (∀ t, (inputs.map fun f => f t).sum - (outputs.map fun f => f t).sum
        + (if withExcess then excessIn t - excessOut t else 0) = 0) ∧
    (withExcess = true →
      (∀ t, 0 ≤ excessIn t ∧ 0 ≤ excessOut t) ∧
      busPenaltyShares n withExcess excessIn excessOut dt rate =
        [⟨excessIn, fun t => dt t * rate t⟩, ⟨excessOut, fun t => dt t * rate t⟩]) := by
  obtain ⟨heq, hbnd⟩ := h
  constructor
  · intro t
    have := heq t
    rw [busBalanceEquation_lhs, busBalanceEquation_const] at this
    exact this
  · intro hw
    refine ⟨fun t => ⟨(hbnd hw).1 t, (hbnd hw).2 t⟩, ?_⟩
    simp [busPenaltyShares, hw]

/-- Witness for C6 on a one-step horizon: input 3, output 2, excess enabled
with `excess_input = 0`, `excess_output = 1`, step duration 2 and penalty
rate 5. -/
theorem c6_bus_balance_witness :
    (∀ t, (c6wInputs.map fun f => f t).sum - (c6wOutputs.map fun f => f t).sum
        + (if true then c6wExcessIn t - c6wExcessOut t else 0) = 0) ∧
    (true = true →
      (∀ t, 0 ≤ c6wExcessIn t ∧ 0 ≤ c6wExcessOut t) ∧
      busPenaltyShares 1 true c6wExcessIn c6wExcessOut c6wDt c6wRate =
        [⟨c6wExcessIn, fun t => c6wDt t * c6wRate t⟩,
         ⟨c6wExcessOut, fun t => c6wDt t * c6wRate t⟩]) := by
  refine c6_bus_balance 1 c6wInputs c6wOutputs true c6wExcessIn c6wExcessOut c6wDt c6wRate ?_
  constructor
  · intro t
    rw [busBalanceEquation_lhs, busBalanceEquation_const]
    simp [c6wInputs, c6wOutputs, c6wExcessIn, c6wExcessOut]
    norm_num
  · intro _
    constructor <;> intro t <;> simp [c6wExcessIn, c6wExcessOut]

/-! ### Claim C7 -/

/-- C7 counterexample: calling `add_share` with no variable, a non-scalar
factor and no time-summing raises the `not yet covered` error even though
neither of the claim's two failure conditions holds (the variable is not a
length-1 variable, and the ledger holds no share at all). -/
theorem c7_counterexample :
    (addShare true emptyLedger 0 none false false).2 = some ShareError.notCovered ∧
      (none : Option ℕ) ≠ some 1 ∧ (0 : ℕ) ∉ emptyLedger.shares := by
  refine ⟨rfl, by simp, by simp [emptyLedger]⟩

/-- C7 amended: `add_share` raises if and only if the supplied variable has
length 1 and is requested to be time-summed, or the share name is already
present in the ledger, or no variable is supplied together with a non-scalar,
non-summed factor (the unimplemented `SingleShareModel` case); when it
succeeds, the share is recorded under its name. -/
theorem c7_add_share_errors_amended (sharesAreTimeSeries : Bool) (st : LedgerState)
    (name : ℕ) (varLength : Option ℕ) (scalarFactor asSum : Bool) :
    ((addShare sharesAreTimeSeries st name varLength scalarFactor asSum).2 ≠ none ↔
      ((varLength = some 1 ∧ asSum = true) ∨ name ∈ st.shares ∨
        (varLength = none ∧ scalarFactor = false ∧ asSum = false))) ∧
    ((addShare sharesAreTimeSeries st name varLength scalarFactor asSum).2 = none →
      (addShare sharesAreTimeSeries st name varLength scalarFactor asSum).1.shares
        = st.shares ++ [name]) := by
  rcases varLength with _ | l
  · cases asSum <;> cases scalarFactor <;> cases sharesAreTimeSeries <;>
      by_cases hm : name ∈ st.shares <;>
      simp [addShare, singleShareInit, hm]
  · by_cases hl : l = 1
    · subst hl
      cases asSum <;> cases sharesAreTimeSeries <;>
        by_cases hm : name ∈ st.shares <;>
        simp [addShare, singleShareInit, hm]
    · cases asSum <;> cases sharesAreTimeSeries <;>
        by_cases hm : name ∈ st.shares <;>
        simp [addShare, singleShareInit, hm, hl]

/-! ### Claim C8 -/

/-- C8: when `add_share` is called with a share name already present in the
ledger (and the `SingleShareModel` construction itself succeeds), it raises
the duplicate-name error only after having appended the new share's variable
as a positive summand to the target sum equation and the sub-model to
`sub_models`; the `shares` dict itself is left unchanged. -/
theorem c8_duplicate_share_mutates (sharesAreTimeSeries : Bool) (st : LedgerState)
    (name : ℕ) (varLength : Option ℕ) (scalarFactor asSum : Bool)
    (hdup : name ∈ st.shares)
    (hok : ∃ k, singleShareInit varLength scalarFactor asSum = .ok k) :
    (addShare sharesAreTimeSeries st name varLength scalarFactor asSum).2
        = some ShareError.duplicateName ∧
    (addShare sharesAreTimeSeries st name varLength scalarFactor asSum).1.subModels
        = st.subModels ++ [name] ∧
    (addShare sharesAreTimeSeries st name varLength scalarFactor asSum).1.shares
        = st.shares ∧
    ((asSum = true ∨ sharesAreTimeSeries = false) →
      (addShare sharesAreTimeSeries st name varLength scalarFactor asSum).1.sumEqTerms
          = st.sumEqTerms ++ [(name, 1)] ∧
      (addShare sharesAreTimeSeries st name varLength scalarFactor asSum).1.tsEqTerms
          = st.tsEqTerms) ∧
    (¬(asSum = true ∨ sharesAreTimeSeries = false) →
      (addShare sharesAreTimeSeries st name varLength scalarFactor asSum).1.tsEqTerms
          = st.tsEqTerms ++ [(name, 1)] ∧
      (addShare sharesAreTimeSeries st name varLength scalarFactor asSum).1.sumEqTerms
          = st.sumEqTerms) := by
  obtain ⟨k, hk⟩ := hok
  by_cases hc : asSum = true ∨ sharesAreTimeSeries = false <;>
    simp [addShare, hk, hdup, hc]

/-- Witness for C8: adding a time-indexed share named 7 to a ledger that
already holds a share named 7. -/
theorem c8_duplicate_share_mutates_witness :
    (addShare true dupLedger 7 (some 3) true false).2 = some ShareError.duplicateName ∧
    (addShare true dupLedger 7 (some 3) true false).1.subModels
        = dupLedger.subModels ++ [7] ∧
    (addShare true dupLedger 7 (some 3) true false).1.shares = dupLedger.shares ∧
    ((false = true ∨ true = false) →
      (addShare true dupLedger 7 (some 3) true false).1.sumEqTerms
          = dupLedger.sumEqTerms ++ [(7, 1)] ∧
      (addShare true dupLedger 7 (some 3) true false).1.tsEqTerms
          = dupLedger.tsEqTerms) ∧
    (¬(false = true ∨ true = false) →
      (addShare true dupLedger 7 (some 3) true false).1.tsEqTerms
          = dupLedger.tsEqTerms ++ [(7, 1)] ∧
      (addShare true dupLedger 7 (some 3) true false).1.sumEqTerms
          = dupLedger.sumEqTerms) :=
  c8_duplicate_share_mutates true dupLedger 7 (some 3) true false
    (by simp [dupLedger]) ⟨3, rfl⟩

/-! ### Claim C9 -/

/-- C9: a `size` of `None` and an explicitly passed `size` of `0` are both
replaced by the configured big default `CONFIG.modeling.BIG`. -/
theorem c9_size_default (big : ℚ) :
    flowSizeInit none big = .scalar big ∧
      flowSizeInit (some (.scalar 0)) big = .scalar big := by
  constructor
  · rfl
  · simp [flowSizeInit]

/-! ### Claim C10 -/

/-- C10 counterexample: for two defining variables with scalar previous
values 5 and 0 (tolerance 0), `_previous_on_values` returns the
PER-VARIABLE array `[1, 0]`, while the claim's per-step reading demands the
single-step array `[1]`. -/
theorem c10_counterexample :
    previousOnValues 0 prevsC10 = some [1, 0] ∧
      previousOnValuesClaimed 0 prevsC10 = some [1] := by
  constructor
  · simp [previousOnValues, prevsC10, PrevVal.isScalar, PrevVal.scalarVal]
  · simp [previousOnValuesClaimed, prevsC10, PrevVal.row]
    decide

/-- C10 amended: `_previous_on_values` returns `[0]` when no defining
variable carries previous values; when every variable carries an equal-length
per-step array it returns, per step, 1 exactly when some variable's entry
differs from 0 by more than `eps`; but when every variable carries a scalar
it returns one indicator per VARIABLE (not per step). -/
theorem c10_previous_on_values_amended (eps : ℚ) (prevs : List (Option PrevVal)) :
    previousOnValues eps prevs = previousOnValuesAmended eps prevs := by
  unfold previousOnValues previousOnValuesAmended
  cases h : prevs.filterMap id with
  | nil => rfl
  | cons v0 vs =>
    dsimp only
    by_cases hall : (v0 :: vs).all PrevVal.isScalar = true
    · rw [if_pos hall, if_pos hall]
      congr 1
      apply List.map_congr_left
      intro v _
      rcases le_or_lt |v.scalarVal| eps with hle | hlt
      · rw [if_pos hle, if_neg (not_lt.2 hle)]
      · rw [if_neg (not_le.2 hlt), if_pos hlt]
    · rw [if_neg hall, if_neg hall]
      cases v0.arrLen with
      | none => rfl
      | some len =>
        dsimp only
        by_cases hlen : ((v0 :: vs).all fun v => v.arrLen == some len) = true
        · rw [if_pos hlen, if_pos hlen]
          congr 1
          apply List.map_congr_left
          intro j _
          apply if_congr _ rfl rfl
          simp [List.any_eq_true]
        · rw [if_neg hlen, if_neg hlen]

end FlixOpt
